import Mathlib

/-!
Verification of the protobuf text-format renderer in
`src/prost-reflect/src/dynamic/fmt.rs`.

The renderer is embedded shallowly: the output sink is a list of characters
(the Rust code is generic over `fmt::Write`; a character sink never rejects a
write, so the embedded functions are total), machine integers are `Nat`/`Int`
with explicit bounds where they matter, and the mutually recursive writer
methods are expressed as a pack of functions defined by recursion on a fuel
counter that every call decrements (the Rust recursion is bounded by the
finite value tree plus the strictly shrinking byte fragments handed to the
speculative decoders, which the shallow embedding represents by fuel).

External collaborators that the spec places out of scope (binary decoding of
unknown field sets, transcoding to `prost_types::Any`, decoding a payload
into a dynamic message, descriptor metadata) are modelled as an abstract
environment and as plain data, per spec section 1.
-/

namespace ProstFmt

/-! ## Characters of numbers -/

/-- Decimal digits of `n`, most significant first, as written by Rust
`Display` for unsigned integers. The accumulator form is structurally
recursive on a fuel argument so that it evaluates by kernel reduction;
`n + 1` steps always suffice because the argument shrinks by a factor of
ten each step. -/
def decDigitsCore : Nat → Nat → List Char → List Char
  | 0, _, acc => acc
  | fuel + 1, n, acc =>
    if n < 10 then Nat.digitChar n :: acc
    else decDigitsCore fuel (n / 10) (Nat.digitChar (n % 10) :: acc)

def decDigits (n : Nat) : List Char :=
  decDigitsCore (n + 1) n []

/-- Rust `Display` for signed integers: a minus sign then the decimal
digits of the absolute value. -/
def intChars (n : Int) : List Char :=
  if n < 0 then '-' :: decDigits n.natAbs else decDigits n.toNat

/-- Rust `Display` for `bool`. -/
def boolChars (b : Bool) : List Char :=
  if b then ("true".data) else ("false".data)

/-- Exactly `w` digits of `n` in base `base`, most significant first,
leading zeros kept. For `n < base ^ w` this is Rust's zero-padded
formatting (`0x{:08x}`, `\{:03o}` and so on), which never needs more than
`w` digits on its actual domain. -/
def fixedDigits (base : Nat) : Nat → Nat → List Char
  | 0, _ => []
  | w + 1, n => fixedDigits base w (n / base) ++ [Nat.digitChar (n % base)]

/-- Little-endian interpretation of a byte list, as in
`u32::from_le_bytes` / `u64::from_le_bytes`. -/
def fromLE (bytes : List Nat) : Nat :=
  bytes.foldr (fun b acc => b + 256 * acc) 0

/-- Reads fixed-width digits back; used to state that the hex rendering of
a fixed 32/64-bit fragment denotes the little-endian value. -/
def fromBase (base : Nat) (ds : List Char) : Nat :=
  ds.foldl (fun a c => a * base + (if c.toNat ≤ 57 then c.toNat - 48 else c.toNat - 87)) 0

def spaces (n : Nat) : List Char := List.replicate n ' '

/-! ## Byte escaping (`Writer::fmt_string`) -/

/-- The escape of one byte, the `match` inside `Writer::fmt_string`:
tab, carriage return, line feed, backslash, single quote and double quote
map to two-character escapes, printable ASCII is emitted literally, and
every other byte becomes a backslash plus three octal digits. -/
def escByte (b : Nat) : List Char :=
  if b = 9 then ['\\', 't']
  else if b = 13 then ['\\', 'r']
  else if b = 10 then ['\\', 'n']
  else if b = 92 then ['\\', '\\']
  else if b = 39 then ['\\', '\'']
  else if b = 34 then ['\\', '"']
  else if 32 ≤ b ∧ b ≤ 126 then [Char.ofNat b]
  else '\\' :: fixedDigits 8 3 b

/-- The full quoted form: opening quote, each byte escaped, closing quote. -/
def escString (bytes : List Nat) : List Char :=
  '"' :: ((bytes.map escByte).flatten ++ ['"'])

/-! ## Data model

The value tree and descriptor metadata consumed by the renderer, from spec
section 3 (their defining modules are external to the rendering core). Only
the attributes the renderer reads are modelled: names, the group flag, the
kind, an enum's number-to-name table, a message descriptor's full name, its
map-entry value kind and the pool reachable from it. Floats are carried as
their already-rendered text, since `f32`/`f64` formatting is delegated to
the standard library and is out of scope for a shallow embedding. -/

inductive UnknownField where
  | varint (v : Nat)
  | thirtyTwoBit (bytes : List Nat)
  | sixtyFourBit (bytes : List Nat)
  | lengthDelimited (bytes : List Nat)
  | group (s : List (Nat × UnknownField))

/-- An unknown field set is its ordered list of (number, fragment) pairs. -/
structure UnknownFieldSet where
  fields : List (Nat × UnknownField)

mutual
inductive Kind where
  | scalar : Kind
  | enum (values : List (Int × List Char)) : Kind
  | message (d : MessageDescriptor) : Kind
inductive MessageDescriptor where
  | mk (name fullName : List Char) (mapEntryValueFieldKind : Kind)
      (pool : List (List Char × MessageDescriptor)) : MessageDescriptor
end

def MessageDescriptor.name : MessageDescriptor → List Char
  | .mk n _ _ _ => n

def MessageDescriptor.fullName : MessageDescriptor → List Char
  | .mk _ fn _ _ => fn

def MessageDescriptor.mapEntryValueFieldKind : MessageDescriptor → Kind
  | .mk _ _ k _ => k

def MessageDescriptor.pool : MessageDescriptor → List (List Char × MessageDescriptor)
  | .mk _ _ _ p => p

def Kind.as_message : Kind → Option MessageDescriptor
  | .message d => some d
  | _ => none

/-- First entry of an association list with the given enum number, the
model of `EnumDescriptor::get_value` followed by `name`. -/
def assocInt : Int → List (Int × List Char) → Option (List Char)
  | _, [] => none
  | n, (k, v) :: rest => if k = n then some v else assocInt n rest

/-- Lookup of a message descriptor by full name in a pool, the model of
`DescriptorPool::get_message_by_name`. -/
def assocName : List Char → List (List Char × MessageDescriptor) → Option MessageDescriptor
  | _, [] => none
  | n, (k, v) :: rest => if k = n then some v else assocName n rest

structure FieldDescriptor where
  name : List Char
  fullName : List Char
  isGroup : Bool
  kind : Kind

/-- The name token of a group-typed field: the nested message's name
(`desc.kind().as_message().unwrap().name()`; the unwrap is modelled by a
default, groups always having message kind). -/
def groupName (d : FieldDescriptor) : List Char :=
  (d.kind.as_message.map MessageDescriptor.name).getD []

def groupFullName (d : FieldDescriptor) : List Char :=
  (d.kind.as_message.map MessageDescriptor.fullName).getD []

inductive MapKey where
  | bool (b : Bool)
  | i32 (n : Int)
  | i64 (n : Int)
  | u32 (n : Nat)
  | u64 (n : Nat)
  | string (bytes : List Nat)

mutual
inductive Value where
  | bool (b : Bool)
  | i32 (n : Int)
  | i64 (n : Int)
  | u32 (n : Nat)
  | u64 (n : Nat)
  | f32 (rendered : List Char)
  | f64 (rendered : List Char)
  | string (bytes : List Nat)
  | bytes (bytes : List Nat)
  | enumNumber (n : Int)
  | message (m : DynamicMessage)
  | list (elems : List Value)
  | map (entries : List (MapKey × Value))
inductive DynamicMessage where
  | mk (desc : MessageDescriptor) (fields : List ValueAndDescriptor) : DynamicMessage
inductive ValueAndDescriptor where
  | field (v : Value) (d : FieldDescriptor) : ValueAndDescriptor
  | ext (v : Value) (d : FieldDescriptor) : ValueAndDescriptor
  | unknown (number : Nat) (values : List UnknownField) : ValueAndDescriptor
end

def DynamicMessage.desc : DynamicMessage → MessageDescriptor
  | .mk d _ => d

def DynamicMessage.fields : DynamicMessage → List ValueAndDescriptor
  | .mk _ fs => fs

/-- The `matches!(f, ValueAndDescriptor::Unknown(..))` test. -/
def ValueAndDescriptor.isUnknown : ValueAndDescriptor → Bool
  | .unknown _ _ => true
  | _ => false

/-- The `matches!(value, Value::Message(_))` test. -/
def Value.isMessage : Value → Bool
  | .message _ => true
  | _ => false

/-! ## Format options and the writer -/

structure FormatOptions where
  pretty : Bool
  skip_unknown_fields : Bool
  expand_any : Bool
  deriving DecidableEq

/-- `FormatOptions::default()`. -/
def FormatOptions.default : FormatOptions :=
  ⟨false, true, true⟩

/-- `FormatOptions::from_formatter`: pretty from the formatter's alternate
flag, the rest from `Default`. -/
def fromFormatter (alternate : Bool) : FormatOptions :=
  ⟨alternate, true, true⟩

structure Writer where
  options : FormatOptions
  out : List Char
  indent_level : Nat
  deriving DecidableEq

def writeStr (w : Writer) (s : List Char) : Writer :=
  { w with out := w.out ++ s }

/-- `Writer::fmt_padding`: one space in pretty mode, nothing otherwise. -/
def fmt_padding (w : Writer) : Writer :=
  if w.options.pretty then writeStr w [' '] else w

/-- `Writer::fmt_newline`: a newline then `indent_level` spaces. -/
def fmt_newline (w : Writer) : Writer :=
  writeStr w ('\n' :: spaces w.indent_level)

/-- `Writer::fmt_string`: opening quote, the escape of each byte in turn,
closing quote. -/
def fmt_string (w : Writer) (bytes : List Nat) : Writer :=
  writeStr (bytes.foldl (fun acc b => writeStr acc (escByte b)) (writeStr w ['"'])) ['"']

/-- The characters `Writer::fmt_map_key` writes for one key. -/
def mapKeyChars : MapKey → List Char
  | .bool b => boolChars b
  | .i32 n => intChars n
  | .i64 n => intChars n
  | .u32 n => decDigits n
  | .u64 n => decDigits n
  | .string s => escString s

/-- `Writer::fmt_map_key`, dispatching on the key variant. -/
def fmt_map_key (w : Writer) : MapKey → Writer
  | .bool b => writeStr w (boolChars b)
  | .i32 n => writeStr w (intChars n)
  | .i64 n => writeStr w (intChars n)
  | .u32 n => writeStr w (decDigits n)
  | .u64 n => writeStr w (decDigits n)
  | .string s => fmt_string w s

/-! ## The environment of external decoders -/

/-- Abstract interface to the out-of-scope binary machinery used by the
renderer: `UnknownFieldSet::decode` for speculative reinterpretation of
length-delimited fragments, `DynamicMessage::transcode_to::<Any>` giving a
wrapper's type identifier and payload, and `DynamicMessage::decode` for
the payload. -/
structure Env where
  decodeUnknown : List Nat → Option UnknownFieldSet
  transcodeAny : DynamicMessage → Option (List Char × List Nat)
  decodeDyn : MessageDescriptor → List Nat → Option DynamicMessage

/-- `str::strip_prefix` on character lists. -/
def stripPre : List Char → List Char → Option (List Char)
  | [], s => some s
  | _ :: _, [] => none
  | p :: ps, c :: cs => if p = c then stripPre ps cs else none

/-- The two recognised URL prefixes, first `type.googleapis.com/`, then
`type.googleprod.com/`, as in `as_any`. -/
def anyTypeName (url : List Char) : Option (List Char) :=
  match stripPre ("type.googleapis.com/".data) url with
  | some rest => some rest
  | none => stripPre ("type.googleprod.com/".data) url

/-- `as_any`: `None` unless the declared full type name is
`google.protobuf.Any`; then transcode, strip a known prefix from the type
identifier, resolve the resulting name in the pool reachable from the
message's own descriptor, and decode the payload; each step propagates
failure. -/
def as_any (env : Env) (m : DynamicMessage) : Option (List Char × DynamicMessage) :=
  if m.desc.fullName = ("google.protobuf.Any".data) then
    match env.transcodeAny m with
    | none => none
    | some (url, payload) =>
      match anyTypeName url with
      | none => none
      | some msgName =>
        match assocName msgName m.desc.pool with
        | none => none
        | some d =>
          match env.decodeDyn d payload with
          | none => none
          | some body => some (url, body)
  else none

/-! ## The recursive writer methods

The mutually recursive methods of `Writer` are embedded as a pack of
functions built by recursion on a fuel counter; every call, recursive or
not, steps to the pack one fuel level down, so the pack is structurally
recursive and kernel-reducible. At fuel zero every method returns its
writer unchanged. The generic `fmt_delimited` and `fmt_list` helpers are
specialised to their three respective element formatters, with the
first-item case carried as a boolean flag. -/

structure FmtPack where
  message : Writer → DynamicMessage → Writer
  value : Writer → Value → Option Kind → Writer
  messageField : Writer → ValueAndDescriptor → Writer
  fieldValue : Writer → Value → Option Kind → Writer
  unknownField : Writer → Nat × UnknownField → Writer
  unknownFieldSet : Writer → UnknownFieldSet → Writer
  delimFieldsGo : Bool → Writer → List ValueAndDescriptor → Writer
  delimUnknownGo : Bool → Writer → List (Nat × UnknownField) → Writer
  listValuesGo : Bool → Writer → Option Kind → List Value → Writer
  listMapGo : Bool → Writer → Option Kind → List (MapKey × Value) → Writer
  mapEntry : Writer → Option Kind → MapKey → Value → Writer

def zeroPack : FmtPack :=
  ⟨fun w _ => w, fun w _ _ => w, fun w _ => w, fun w _ _ => w, fun w _ => w,
    fun w _ => w, fun _ w _ => w, fun _ w _ => w, fun _ w _ _ => w,
    fun _ w _ _ => w, fun w _ _ _ => w⟩

/-- `Writer::fmt_message`: with `expand_any` set and `as_any` succeeding,
write the bracketed type identifier then the decoded body as a field
value; otherwise the delimited present fields, with unknown entries
filtered out when `skip_unknown_fields` is set. -/
def fmtMessageF (env : Env) (p : FmtPack) (w : Writer) (m : DynamicMessage) : Writer :=
  match (if w.options.expand_any then as_any env m else none) with
  | some (url, body) =>
    p.fieldValue (writeStr w ('[' :: (url ++ [']']))) (Value.message body) none
  | none =>
    if w.options.skip_unknown_fields then
      p.delimFieldsGo true w (m.fields.filter (fun f => !f.isUnknown))
    else
      p.delimFieldsGo true w m.fields

/-- `Writer::fmt_value`: dispatch on the value variant. -/
def fmtValueF (env : Env) (p : FmtPack) (w : Writer) (v : Value) (k : Option Kind) : Writer :=
  match v with
  | .bool b => writeStr w (boolChars b)
  | .i32 n => writeStr w (intChars n)
  | .i64 n => writeStr w (intChars n)
  | .u32 n => writeStr w (decDigits n)
  | .u64 n => writeStr w (decDigits n)
  | .f32 r => writeStr w r
  | .f64 r => writeStr w r
  | .string s => fmt_string w s
  | .bytes s => fmt_string w s
  | .enumNumber n =>
    match k with
    | some (Kind.enum vs) =>
      match assocInt n vs with
      | some nm => writeStr w nm
      | none => writeStr w (intChars n)
    | _ => writeStr w (intChars n)
  | .message m =>
    if m.fields.all (fun f => w.options.skip_unknown_fields && f.isUnknown) then
      writeStr w ['{', '}']
    else if w.options.pretty then
      let w1 := writeStr w ['{']
      let w2 := fmt_newline { w1 with indent_level := w1.indent_level + 2 }
      let w3 := p.message w2 m
      let w4 := fmt_newline { w3 with indent_level := w3.indent_level - 2 }
      writeStr w4 ['}']
    else
      writeStr (p.message (writeStr w ['{']) m) ['}']
  | .list l => writeStr (p.listValuesGo true (writeStr w ['[']) k l) [']']
  | .map entries =>
    let vk := (Option.bind k Kind.as_message).map MessageDescriptor.mapEntryValueFieldKind
    writeStr (p.listMapGo true (writeStr w ['[']) vk entries) [']']

/-- `Writer::fmt_message_field`: the field token (bare name, group name, or
bracketed extension name) then the field value; unknown entries delegate
one rendering per fragment to the unknown-field renderer. -/
def fmtMessageFieldF (env : Env) (p : FmtPack) (w : Writer) (f : ValueAndDescriptor) : Writer :=
  match f with
  | .field v d =>
    let w := if d.isGroup then writeStr w (groupName d) else writeStr w d.name
    p.fieldValue w v (some d.kind)
  | .ext v d =>
    let w :=
      if d.isGroup then writeStr w ('[' :: (groupFullName d ++ [']']))
      else writeStr w ('[' :: (d.fullName ++ [']']))
    p.fieldValue w v (some d.kind)
  | .unknown number values =>
    p.delimUnknownGo true w (values.map (fun v => (number, v)))

/-- `Writer::fmt_field_value`: a colon unless the value is a message, then
padding, then the value. -/
def fmtFieldValueF (env : Env) (p : FmtPack) (w : Writer) (v : Value) (k : Option Kind) : Writer :=
  let w := if v.isMessage then w else writeStr w [':']
  p.value (fmt_padding w) v k

/-- `Writer::fmt_unknown_field`: the field number, then per wire type a
colon-separated scalar, a speculative nested set (no colon), or an escaped
byte string. -/
def fmtUnknownFieldF (env : Env) (p : FmtPack) (w : Writer) (nf : Nat × UnknownField) : Writer :=
  let w := writeStr w (decDigits nf.1)
  match nf.2 with
  | .varint v => writeStr (fmt_padding (writeStr w [':'])) (decDigits v)
  | .thirtyTwoBit bs =>
    writeStr (fmt_padding (writeStr w [':'])) ('0' :: 'x' :: fixedDigits 16 8 (fromLE bs))
  | .sixtyFourBit bs =>
    writeStr (fmt_padding (writeStr w [':'])) ('0' :: 'x' :: fixedDigits 16 16 (fromLE bs))
  | .lengthDelimited bs =>
    match (if bs.isEmpty then none else env.decodeUnknown bs) with
    | some set => p.unknownFieldSet (fmt_padding w) set
    | none => fmt_string (fmt_padding (writeStr w [':'])) bs
  | .group s => p.unknownFieldSet (fmt_padding w) ⟨s⟩

/-- `Writer::fmt_unknown_field_set`: empty set is a bare brace pair;
otherwise braces around the delimited fragments, with indentation in
pretty mode. -/
def fmtUnknownFieldSetF (env : Env) (p : FmtPack) (w : Writer) (s : UnknownFieldSet) : Writer :=
  if s.fields.isEmpty then writeStr w ['{', '}']
  else if w.options.pretty then
    let w1 := writeStr w ['{']
    let w2 := fmt_newline { w1 with indent_level := w1.indent_level + 2 }
    let w3 := p.delimUnknownGo true w2 s.fields
    let w4 := fmt_newline { w3 with indent_level := w3.indent_level - 2 }
    writeStr w4 ['}']
  else
    writeStr (p.delimUnknownGo true (writeStr w ['{']) s.fields) ['}']

/-- `Writer::fmt_delimited` over message fields: every item after the
first is preceded by a newline in pretty mode or a comma otherwise. -/
def fmtDelimFieldsGoF (env : Env) (p : FmtPack) (first : Bool) (w : Writer)
    (l : List ValueAndDescriptor) : Writer :=
  match l with
  | [] => w
  | x :: xs =>
    let w := if first then w else (if w.options.pretty then fmt_newline w else writeStr w [','])
    p.delimFieldsGo false (p.messageField w x) xs

/-- `Writer::fmt_delimited` over unknown fragments. -/
def fmtDelimUnknownGoF (env : Env) (p : FmtPack) (first : Bool) (w : Writer)
    (l : List (Nat × UnknownField)) : Writer :=
  match l with
  | [] => w
  | x :: xs =>
    let w := if first then w else (if w.options.pretty then fmt_newline w else writeStr w [','])
    p.delimUnknownGo false (p.unknownField w x) xs

/-- `Writer::fmt_list` elements for a list value: a comma and padding
before every item after the first, each element formatted by `fmt_value`
with the kind forwarded unchanged. -/
def fmtListValuesGoF (env : Env) (p : FmtPack) (first : Bool) (w : Writer) (k : Option Kind)
    (l : List Value) : Writer :=
  match l with
  | [] => w
  | x :: xs =>
    let w := if first then w else fmt_padding (writeStr w [','])
    p.listValuesGo false (p.value w x k) k xs

/-- `Writer::fmt_list` elements for a map value. -/
def fmtListMapGoF (env : Env) (p : FmtPack) (first : Bool) (w : Writer) (vk : Option Kind)
    (l : List (MapKey × Value)) : Writer :=
  match l with
  | [] => w
  | (key, value) :: xs =>
    let w := if first then w else fmt_padding (writeStr w [','])
    p.listMapGo false (p.mapEntry w vk key value) vk xs

/-- One synthetic map entry, the closure inside `Value::Map` rendering. -/
def fmtMapEntryF (env : Env) (p : FmtPack) (w : Writer) (vk : Option Kind) (key : MapKey)
    (value : Value) : Writer :=
  if w.options.pretty then
    let w1 := writeStr w ['{']
    let w2 := fmt_newline { w1 with indent_level := w1.indent_level + 2 }
    let w3 := fmt_map_key (writeStr w2 ('k' :: 'e' :: 'y' :: ':' :: [' '])) key
    let w4 := fmt_newline w3
    let w5 := p.fieldValue (writeStr w4 ("value".data)) value vk
    let w6 := fmt_newline { w5 with indent_level := w5.indent_level - 2 }
    writeStr w6 ['}']
  else
    let w1 := fmt_map_key (writeStr w ('{' :: 'k' :: 'e' :: 'y' :: [':'])) key
    writeStr (p.fieldValue (writeStr w1 (',' :: ("value".data))) value vk) ['}']

def packOf (env : Env) (p : FmtPack) : FmtPack :=
  { message := fmtMessageF env p
    value := fmtValueF env p
    messageField := fmtMessageFieldF env p
    fieldValue := fmtFieldValueF env p
    unknownField := fmtUnknownFieldF env p
    unknownFieldSet := fmtUnknownFieldSetF env p
    delimFieldsGo := fmtDelimFieldsGoF env p
    delimUnknownGo := fmtDelimUnknownGoF env p
    listValuesGo := fmtListValuesGoF env p
    listMapGo := fmtListMapGoF env p
    mapEntry := fmtMapEntryF env p }

def fmtStep (env : Env) : Nat → FmtPack
  | 0 => zeroPack
  | fuel + 1 => packOf env (fmtStep env fuel)

def fmt_message (env : Env) (fuel : Nat) : Writer → DynamicMessage → Writer :=
  (fmtStep env fuel).message

def fmt_value (env : Env) (fuel : Nat) : Writer → Value → Option Kind → Writer :=
  (fmtStep env fuel).value

def fmt_message_field (env : Env) (fuel : Nat) : Writer → ValueAndDescriptor → Writer :=
  (fmtStep env fuel).messageField

def fmt_field_value (env : Env) (fuel : Nat) : Writer → Value → Option Kind → Writer :=
  (fmtStep env fuel).fieldValue

def fmt_unknown_field (env : Env) (fuel : Nat) : Writer → Nat × UnknownField → Writer :=
  (fmtStep env fuel).unknownField

def fmt_unknown_field_set (env : Env) (fuel : Nat) : Writer → UnknownFieldSet → Writer :=
  (fmtStep env fuel).unknownFieldSet

def fmtDelimFieldsGo (env : Env) (fuel : Nat) :
    Bool → Writer → List ValueAndDescriptor → Writer :=
  (fmtStep env fuel).delimFieldsGo

def fmtDelimUnknownGo (env : Env) (fuel : Nat) :
    Bool → Writer → List (Nat × UnknownField) → Writer :=
  (fmtStep env fuel).delimUnknownGo

def fmtListValuesGo (env : Env) (fuel : Nat) :
    Bool → Writer → Option Kind → List Value → Writer :=
  (fmtStep env fuel).listValuesGo

def fmtListMapGo (env : Env) (fuel : Nat) :
    Bool → Writer → Option Kind → List (MapKey × Value) → Writer :=
  (fmtStep env fuel).listMapGo

def fmtMapEntry (env : Env) (fuel : Nat) : Writer → Option Kind → MapKey → Value → Writer :=
  (fmtStep env fuel).mapEntry

/-! ## Public entry points

The three `Display` implementations: a bare value with no static kind, a
dynamic message, and an unknown field set; the last overrides
`skip_unknown_fields` to `false` while taking `pretty` from the ambient
alternate flag. Each starts from an empty sink at indent zero. -/

def displayValue (env : Env) (fuel : Nat) (alternate : Bool) (v : Value) : List Char :=
  (fmt_value env fuel (Writer.mk (fromFormatter alternate) [] 0) v none).out

def displayDynamicMessage (env : Env) (fuel : Nat) (alternate : Bool)
    (m : DynamicMessage) : List Char :=
  (fmt_message env fuel (Writer.mk (fromFormatter alternate) [] 0) m).out

def displayUnknownFieldSet (env : Env) (fuel : Nat) (alternate : Bool)
    (s : UnknownFieldSet) : List Char :=
  (fmtDelimUnknownGo env fuel true
    (Writer.mk { fromFormatter alternate with skip_unknown_fields := false } [] 0)
    s.fields).out

/-! ## A second description of the output: mode-independent tokens

Following the delimiter engine of spec section 4.5, the output of every
writer method is described a second time as a token sequence that does not
depend on the pretty flag: literal text, a padding point (one space in
pretty mode, nothing in compact), a sibling separator (newline plus indent
in pretty mode, a comma in compact), and the interior boundaries of a
braced block (indent adjustment plus newline in pretty mode, nothing in
compact). `applyToks` replays a token sequence against a writer exactly as
the writer methods would. -/

inductive Tok where
  | text (s : List Char)
  | pad
  | sep
  | openB
  | closeB

def applyTok (w : Writer) : Tok → Writer
  | .text s => writeStr w s
  | .pad => fmt_padding w
  | .sep => if w.options.pretty then fmt_newline w else writeStr w [',']
  | .openB =>
    if w.options.pretty then fmt_newline { w with indent_level := w.indent_level + 2 }
    else w
  | .closeB =>
    if w.options.pretty then fmt_newline { w with indent_level := w.indent_level - 2 }
    else w

def applyToks (w : Writer) (ts : List Tok) : Writer :=
  ts.foldl applyTok w

structure ToksPack where
  message : Bool → Bool → DynamicMessage → List Tok
  value : Bool → Bool → Value → Option Kind → List Tok
  messageField : Bool → Bool → ValueAndDescriptor → List Tok
  fieldValue : Bool → Bool → Value → Option Kind → List Tok
  unknownField : Nat × UnknownField → List Tok
  unknownFieldSet : UnknownFieldSet → List Tok
  delimFieldsGo : Bool → Bool → Bool → List ValueAndDescriptor → List Tok
  delimUnknownGo : Bool → List (Nat × UnknownField) → List Tok
  listValuesGo : Bool → Bool → Bool → Option Kind → List Value → List Tok
  listMapGo : Bool → Bool → Bool → Option Kind → List (MapKey × Value) → List Tok
  mapEntry : Bool → Bool → Option Kind → MapKey → Value → List Tok

def zeroToks : ToksPack :=
  ⟨fun _ _ _ => [], fun _ _ _ _ => [], fun _ _ _ => [], fun _ _ _ _ => [], fun _ => [],
    fun _ => [], fun _ _ _ _ => [], fun _ _ => [], fun _ _ _ _ _ => [],
    fun _ _ _ _ _ => [], fun _ _ _ _ _ => []⟩

def toksMessageF (env : Env) (q : ToksPack) (su ea : Bool) (m : DynamicMessage) : List Tok :=
  match (if ea then as_any env m else none) with
  | some (url, body) =>
    Tok.text ('[' :: (url ++ [']'])) :: q.fieldValue su ea (Value.message body) none
  | none =>
    if su then q.delimFieldsGo su ea true (m.fields.filter (fun f => !f.isUnknown))
    else q.delimFieldsGo su ea true m.fields

def toksValueF (env : Env) (q : ToksPack) (su ea : Bool) (v : Value) (k : Option Kind) :
    List Tok :=
  match v with
  | .bool b => [Tok.text (boolChars b)]
  | .i32 n => [Tok.text (intChars n)]
  | .i64 n => [Tok.text (intChars n)]
  | .u32 n => [Tok.text (decDigits n)]
  | .u64 n => [Tok.text (decDigits n)]
  | .f32 r => [Tok.text r]
  | .f64 r => [Tok.text r]
  | .string s => [Tok.text (escString s)]
  | .bytes s => [Tok.text (escString s)]
  | .enumNumber n =>
    match k with
    | some (Kind.enum vs) =>
      match assocInt n vs with
      | some nm => [Tok.text nm]
      | none => [Tok.text (intChars n)]
    | _ => [Tok.text (intChars n)]
  | .message m =>
    if m.fields.all (fun f => su && f.isUnknown) then
      [Tok.text ['{', '}']]
    else
      Tok.text ['{'] :: Tok.openB :: (q.message su ea m ++ [Tok.closeB, Tok.text ['}']])
  | .list l => Tok.text ['['] :: (q.listValuesGo su ea true k l ++ [Tok.text [']']])
  | .map entries =>
    let vk := (Option.bind k Kind.as_message).map MessageDescriptor.mapEntryValueFieldKind
    Tok.text ['['] :: (q.listMapGo su ea true vk entries ++ [Tok.text [']']])

def toksMessageFieldF (env : Env) (q : ToksPack) (su ea : Bool) (f : ValueAndDescriptor) :
    List Tok :=
  match f with
  | .field v d =>
    Tok.text (if d.isGroup then groupName d else d.name) :: q.fieldValue su ea v (some d.kind)
  | .ext v d =>
    Tok.text ('[' :: ((if d.isGroup then groupFullName d else d.fullName) ++ [']'])) ::
      q.fieldValue su ea v (some d.kind)
  | .unknown number values =>
    q.delimUnknownGo true (values.map (fun v => (number, v)))

def toksFieldValueF (env : Env) (q : ToksPack) (su ea : Bool) (v : Value) (k : Option Kind) :
    List Tok :=
  (if v.isMessage then [] else [Tok.text [':']]) ++ Tok.pad :: q.value su ea v k

def toksUnknownFieldF (env : Env) (q : ToksPack) (nf : Nat × UnknownField) : List Tok :=
  Tok.text (decDigits nf.1) ::
    match nf.2 with
    | .varint v => [Tok.text [':'], Tok.pad, Tok.text (decDigits v)]
    | .thirtyTwoBit bs => [Tok.text [':'], Tok.pad, Tok.text ('0' :: 'x' :: fixedDigits 16 8 (fromLE bs))]
    | .sixtyFourBit bs => [Tok.text [':'], Tok.pad, Tok.text ('0' :: 'x' :: fixedDigits 16 16 (fromLE bs))]
    | .lengthDelimited bs =>
      match (if bs.isEmpty then none else env.decodeUnknown bs) with
      | some set => Tok.pad :: q.unknownFieldSet set
      | none => [Tok.text [':'], Tok.pad, Tok.text (escString bs)]
    | .group s => Tok.pad :: q.unknownFieldSet ⟨s⟩

def toksUnknownFieldSetF (env : Env) (q : ToksPack) (s : UnknownFieldSet) : List Tok :=
  if s.fields.isEmpty then [Tok.text ['{', '}']]
  else
    Tok.text ['{'] :: Tok.openB :: (q.delimUnknownGo true s.fields ++ [Tok.closeB, Tok.text ['}']])

def toksDelimFieldsGoF (env : Env) (q : ToksPack) (su ea first : Bool)
    (l : List ValueAndDescriptor) : List Tok :=
  match l with
  | [] => []
  | x :: xs =>
    (if first then [] else [Tok.sep]) ++ (q.messageField su ea x ++ q.delimFieldsGo su ea false xs)

def toksDelimUnknownGoF (env : Env) (q : ToksPack) (first : Bool)
    (l : List (Nat × UnknownField)) : List Tok :=
  match l with
  | [] => []
  | x :: xs =>
    (if first then [] else [Tok.sep]) ++ (q.unknownField x ++ q.delimUnknownGo false xs)

def toksListValuesGoF (env : Env) (q : ToksPack) (su ea first : Bool) (k : Option Kind)
    (l : List Value) : List Tok :=
  match l with
  | [] => []
  | x :: xs =>
    (if first then [] else [Tok.text [','], Tok.pad]) ++
      (q.value su ea x k ++ q.listValuesGo su ea false k xs)

def toksListMapGoF (env : Env) (q : ToksPack) (su ea first : Bool) (vk : Option Kind)
    (l : List (MapKey × Value)) : List Tok :=
  match l with
  | [] => []
  | (key, value) :: xs =>
    (if first then [] else [Tok.text [','], Tok.pad]) ++
      (q.mapEntry su ea vk key value ++ q.listMapGo su ea false vk xs)

def toksMapEntryF (env : Env) (q : ToksPack) (su ea : Bool) (vk : Option Kind) (key : MapKey)
    (value : Value) : List Tok :=
  Tok.text ['{'] :: Tok.openB :: Tok.text ('k' :: 'e' :: 'y' :: [':']) :: Tok.pad ::
    Tok.text (mapKeyChars key) :: Tok.sep :: Tok.text ("value".data) ::
    (q.fieldValue su ea value vk ++ [Tok.closeB, Tok.text ['}']])

def toksOf (env : Env) (q : ToksPack) : ToksPack :=
  { message := toksMessageF env q
    value := toksValueF env q
    messageField := toksMessageFieldF env q
    fieldValue := toksFieldValueF env q
    unknownField := toksUnknownFieldF env q
    unknownFieldSet := toksUnknownFieldSetF env q
    delimFieldsGo := toksDelimFieldsGoF env q
    delimUnknownGo := toksDelimUnknownGoF env q
    listValuesGo := toksListValuesGoF env q
    listMapGo := toksListMapGoF env q
    mapEntry := toksMapEntryF env q }

def toksStep (env : Env) : Nat → ToksPack
  | 0 => zeroToks
  | fuel + 1 => toksOf env (toksStep env fuel)

def toksValue (env : Env) (fuel : Nat) (su ea : Bool) (v : Value) (k : Option Kind) : List Tok :=
  (toksStep env fuel).value su ea v k

def toksDelimUnknownGo (env : Env) (fuel : Nat) (first : Bool)
    (l : List (Nat × UnknownField)) : List Tok :=
  (toksStep env fuel).delimUnknownGo first l

/-! ## Flattening token sequences to characters

`flatC` realises a token sequence the way a compact-mode writer does,
`flatP` the way a pretty-mode writer does at a given indent level. -/

def flatC : List Tok → List Char
  | [] => []
  | .text s :: ts => s ++ flatC ts
  | .pad :: ts => flatC ts
  | .sep :: ts => ',' :: flatC ts
  | .openB :: ts => flatC ts
  | .closeB :: ts => flatC ts

def flatP (i : Nat) : List Tok → List Char
  | [] => []
  | .text s :: ts => s ++ flatP i ts
  | .pad :: ts => ' ' :: flatP i ts
  | .sep :: ts => '\n' :: (spaces i ++ flatP i ts)
  | .openB :: ts => '\n' :: (spaces (i + 2) ++ flatP (i + 2) ts)
  | .closeB :: ts => '\n' :: (spaces (i - 2) ++ flatP (i - 2) ts)

/-! ## Concrete instances and spec-side definitions used by the claim statements -/

/-- The sixteen hexadecimal digit characters, lowercase. -/
def hexChars : List Char :=
  (List.range 16).map Nat.digitChar

/-! ## A compliant unescaper

From spec section 8: a parser that inverts the escaping table of section
4.3, reading two-character named escapes, three-digit octal escapes, and
literal characters. -/

def isOct (c : Char) : Bool :=
  48 ≤ c.toNat && c.toNat ≤ 55

def octVal (c : Char) : Nat := c.toNat - 48

/-- Modelled from the spec: the inverse of the escaping table, applied to
the text between the quotes (a compliant unescaper; no parser exists in
the rendering core itself). -/
def unescape : List Char → Option (List Nat)
  | [] => some []
  | c :: r =>
    if c = '\\' then
      match r with
      | [] => none
      | e :: r2 =>
        if e = 't' then (unescape r2).map (fun l => 9 :: l)
        else if e = 'r' then (unescape r2).map (fun l => 13 :: l)
        else if e = 'n' then (unescape r2).map (fun l => 10 :: l)
        else if e = '\\' then (unescape r2).map (fun l => 92 :: l)
        else if e = '\'' then (unescape r2).map (fun l => 39 :: l)
        else if e = '"' then (unescape r2).map (fun l => 34 :: l)
        else
          match r2 with
          | d2 :: d3 :: r3 =>
            if isOct e && isOct d2 && isOct d3 then
              (unescape r3).map (fun l => (octVal e * 64 + octVal d2 * 8 + octVal d3) :: l)
            else none
          | _ => none
    else (unescape r).map (fun l => c.toNat :: l)

/-- A trivial environment in which every external decode fails. -/
def envTriv : Env := ⟨fun _ => none, fun _ => none, fun _ _ => none⟩

/-- Modelled from the spec: the escaping table of section 4.3, row by
row — tab, carriage return, line feed, backslash, single quote, double
quote, literal printable ASCII, three-digit octal for every other byte. -/
def specEscTable (b : Nat) : List Char :=
  if b = 9 then ['\\', 't']
  else if b = 13 then ['\\', 'r']
  else if b = 10 then ['\\', 'n']
  else if b = 92 then ['\\', '\\']
  else if b = 39 then ['\\', '\'']
  else if b = 34 then ['\\', '"']
  else if 32 ≤ b ∧ b ≤ 126 then [Char.ofNat b]
  else '\\' :: fixedDigits 8 3 b

def printableAscii (c : Char) : Bool :=
  32 ≤ c.toNat && c.toNat ≤ 126

def descBody : MessageDescriptor := .mk ("M".data) ("test.M".data) Kind.scalar []

def anyDesc : MessageDescriptor :=
  .mk ("Any".data) ("google.protobuf.Any".data) Kind.scalar [(("test.M".data), descBody)]

def bodyMsg : DynamicMessage :=
  .mk descBody
    [ValueAndDescriptor.field (Value.bool true) ⟨"b".data, "test.M.b".data, false, Kind.scalar⟩]

def wrapperMsg : DynamicMessage := .mk anyDesc []

def envAny : Env :=
  ⟨fun _ => none, fun _ => some (("type.googleapis.com/test.M".data), [1]),
    fun _ _ => some bodyMsg⟩

def c6Value : Value := Value.map [(MapKey.i32 1, Value.u32 2)]


/-! ## Elementary writer lemmas -/

@[simp] theorem writeStr_options (w : Writer) (s : List Char) :
    (writeStr w s).options = w.options := rfl

@[simp] theorem writeStr_indent (w : Writer) (s : List Char) :
    (writeStr w s).indent_level = w.indent_level := rfl

@[simp] theorem writeStr_out (w : Writer) (s : List Char) :
    (writeStr w s).out = w.out ++ s := rfl

@[simp] theorem writeStr_nil (w : Writer) : writeStr w [] = w := by
  simp [writeStr]

theorem writeStr_writeStr (w : Writer) (a b : List Char) :
    writeStr (writeStr w a) b = writeStr w (a ++ b) := by
  simp [writeStr]

@[simp] theorem fmt_padding_options (w : Writer) : (fmt_padding w).options = w.options := by
  unfold fmt_padding; split <;> rfl

@[simp] theorem fmt_padding_indent (w : Writer) :
    (fmt_padding w).indent_level = w.indent_level := by
  unfold fmt_padding; split <;> rfl

@[simp] theorem fmt_newline_options (w : Writer) : (fmt_newline w).options = w.options := rfl

@[simp] theorem fmt_newline_indent (w : Writer) :
    (fmt_newline w).indent_level = w.indent_level := rfl

/-- The fold inside `fmt_string` appends the concatenation of the
individual byte escapes, for any starting writer. -/
theorem escFoldl (bytes : List Nat) (w : Writer) :
    bytes.foldl (fun acc b => writeStr acc (escByte b)) w =
      writeStr w ((bytes.map escByte).flatten) := by
  induction bytes generalizing w with
  | nil => simp
  | cons b bs ih => simp [ih, writeStr_writeStr]

/-- `fmt_string` writes the quoted escaped form in one piece. -/
theorem fmt_string_eq (w : Writer) (bytes : List Nat) :
    fmt_string w bytes = writeStr w (escString bytes) := by
  unfold fmt_string escString
  rw [escFoldl, writeStr_writeStr, writeStr_writeStr]
  simp

/-- `fmt_map_key` writes exactly the characters of `mapKeyChars`. -/
theorem fmt_map_key_eq (w : Writer) (k : MapKey) :
    fmt_map_key w k = writeStr w (mapKeyChars k) := by
  cases k <;> simp [fmt_map_key, mapKeyChars, fmt_string_eq]

@[simp] theorem applyToks_nil (w : Writer) : applyToks w [] = w := rfl

@[simp] theorem applyToks_cons (w : Writer) (t : Tok) (ts : List Tok) :
    applyToks w (t :: ts) = applyToks (applyTok w t) ts := rfl

@[simp] theorem applyToks_append (w : Writer) (a b : List Tok) :
    applyToks w (a ++ b) = applyToks (applyToks w a) b := by
  simp [applyToks, List.foldl_append]

@[simp] theorem applyTok_text (w : Writer) (s : List Char) :
    applyTok w (.text s) = writeStr w s := rfl

@[simp] theorem applyTok_pad (w : Writer) : applyTok w .pad = fmt_padding w := rfl

@[simp] theorem applyTok_options (w : Writer) (t : Tok) : (applyTok w t).options = w.options := by
  cases t <;> simp [applyTok, fmt_padding] <;> split <;> rfl

@[simp] theorem applyToks_options (ts : List Tok) (w : Writer) :
    (applyToks w ts).options = w.options := by
  induction ts generalizing w with
  | nil => rfl
  | cons t ts ih => rw [applyToks_cons, ih, applyTok_options]

/-! ## Agreement: the writer methods replay their token description

Every method of the fuel-indexed writer pack produces exactly the writer
obtained by replaying the corresponding token description. The token
description never consults the pretty flag, so this single statement ties
the compact and the pretty render of any input to one shared token
sequence. -/

theorem master (env : Env) : ∀ fuel : Nat,
    (∀ w m, (fmtStep env fuel).message w m =
      applyToks w ((toksStep env fuel).message w.options.skip_unknown_fields
        w.options.expand_any m)) ∧
    (∀ w v k, (fmtStep env fuel).value w v k =
      applyToks w ((toksStep env fuel).value w.options.skip_unknown_fields
        w.options.expand_any v k)) ∧
    (∀ w f, (fmtStep env fuel).messageField w f =
      applyToks w ((toksStep env fuel).messageField w.options.skip_unknown_fields
        w.options.expand_any f)) ∧
    (∀ w v k, (fmtStep env fuel).fieldValue w v k =
      applyToks w ((toksStep env fuel).fieldValue w.options.skip_unknown_fields
        w.options.expand_any v k)) ∧
    (∀ w nf, (fmtStep env fuel).unknownField w nf =
      applyToks w ((toksStep env fuel).unknownField nf)) ∧
    (∀ w s, (fmtStep env fuel).unknownFieldSet w s =
      applyToks w ((toksStep env fuel).unknownFieldSet s)) ∧
    (∀ first w l, (fmtStep env fuel).delimFieldsGo first w l =
      applyToks w ((toksStep env fuel).delimFieldsGo w.options.skip_unknown_fields
        w.options.expand_any first l)) ∧
    (∀ first w l, (fmtStep env fuel).delimUnknownGo first w l =
      applyToks w ((toksStep env fuel).delimUnknownGo first l)) ∧
    (∀ first w k l, (fmtStep env fuel).listValuesGo first w k l =
      applyToks w ((toksStep env fuel).listValuesGo w.options.skip_unknown_fields
        w.options.expand_any first k l)) ∧
    (∀ first w vk l, (fmtStep env fuel).listMapGo first w vk l =
      applyToks w ((toksStep env fuel).listMapGo w.options.skip_unknown_fields
        w.options.expand_any first vk l)) ∧
    (∀ w vk key value, (fmtStep env fuel).mapEntry w vk key value =
      applyToks w ((toksStep env fuel).mapEntry w.options.skip_unknown_fields
        w.options.expand_any vk key value)) := by
  intro fuel
  induction fuel with
  | zero =>
    refine ⟨?_, ?_, ?_, ?_, ?_, ?_, ?_, ?_, ?_, ?_, ?_⟩ <;> intros <;> rfl
  | succ fuel ih =>
    obtain ⟨ihMsg, ihVal, ihMF, ihFV, ihUF, ihUFS, ihDF, ihDU, ihLV, ihLM, ihME⟩ := ih
    refine ⟨?_, ?_, ?_, ?_, ?_, ?_, ?_, ?_, ?_, ?_, ?_⟩
    · -- message
      intro w m
      show fmtMessageF env (fmtStep env fuel) w m =
        applyToks w (toksMessageF env (toksStep env fuel) _ _ m)
      unfold fmtMessageF toksMessageF
      cases h : (if w.options.expand_any then as_any env m else none) with
      | some ub =>
        obtain ⟨url, body⟩ := ub
        dsimp only
        simp [ihFV]
      | none =>
        dsimp only
        by_cases hsu : w.options.skip_unknown_fields = true <;> simp [hsu, ihDF]
    · -- value
      intro w v k
      show fmtValueF env (fmtStep env fuel) w v k =
        applyToks w (toksValueF env (toksStep env fuel) _ _ v k)
      unfold fmtValueF toksValueF
      cases v with
      | bool b => simp
      | i32 n => simp
      | i64 n => simp
      | u32 n => simp
      | u64 n => simp
      | f32 r => simp
      | f64 r => simp
      | string s => simp [fmt_string_eq]
      | bytes s => simp [fmt_string_eq]
      | enumNumber n =>
        match k with
        | none => simp
        | some Kind.scalar => simp
        | some (Kind.message d) => simp
        | some (Kind.enum vs) =>
          cases h : assocInt n vs with
          | some nm => simp [h]
          | none => simp [h]
      | message m =>
        by_cases hall : (m.fields.all
            fun f => w.options.skip_unknown_fields && f.isUnknown) = true
        · simp [hall]
        · by_cases hp : w.options.pretty = true <;>
            simp [hall, hp, applyTok, ihMsg]
      | list l => simp [ihLV]
      | map entries => simp [ihLM]
    · -- messageField
      intro w f
      show fmtMessageFieldF env (fmtStep env fuel) w f =
        applyToks w (toksMessageFieldF env (toksStep env fuel) _ _ f)
      unfold fmtMessageFieldF toksMessageFieldF
      cases f with
      | field v d =>
        by_cases hg : d.isGroup = true <;> simp [hg, ihFV]
      | ext v d =>
        by_cases hg : d.isGroup = true <;> simp [hg, ihFV]
      | unknown number values =>
        dsimp only
        exact ihDU true w _
    · -- fieldValue
      intro w v k
      show fmtFieldValueF env (fmtStep env fuel) w v k =
        applyToks w (toksFieldValueF env (toksStep env fuel) _ _ v k)
      unfold fmtFieldValueF toksFieldValueF
      by_cases hm : v.isMessage = true <;> simp [hm, ihVal]
    · -- unknownField
      intro w nf
      show fmtUnknownFieldF env (fmtStep env fuel) w nf =
        applyToks w (toksUnknownFieldF env (toksStep env fuel) nf)
      unfold fmtUnknownFieldF toksUnknownFieldF
      obtain ⟨number, f⟩ := nf
      cases f with
      | varint v => simp
      | thirtyTwoBit bs => simp
      | sixtyFourBit bs => simp
      | lengthDelimited bs =>
        cases h : (if bs.isEmpty then none else env.decodeUnknown bs) with
        | some set =>
          dsimp only
          rw [h]
          dsimp only
          simp [ihUFS]
        | none =>
          dsimp only
          rw [h]
          dsimp only
          simp [fmt_string_eq]
      | group s =>
        dsimp only
        simp [ihUFS]
    · -- unknownFieldSet
      intro w s
      show fmtUnknownFieldSetF env (fmtStep env fuel) w s =
        applyToks w (toksUnknownFieldSetF env (toksStep env fuel) s)
      unfold fmtUnknownFieldSetF toksUnknownFieldSetF
      by_cases he : s.fields.isEmpty = true
      · simp [he]
      · by_cases hp : w.options.pretty = true <;>
          simp [he, hp, applyTok, ihDU]
    · -- delimFieldsGo
      intro first w l
      show fmtDelimFieldsGoF env (fmtStep env fuel) first w l =
        applyToks w (toksDelimFieldsGoF env (toksStep env fuel) _ _ first l)
      unfold fmtDelimFieldsGoF toksDelimFieldsGoF
      cases l with
      | nil => rfl
      | cons x xs =>
        cases first with
        | true =>
          dsimp only
          simp [ihMF, ihDF]
        | false =>
          by_cases hp : w.options.pretty = true <;>
            simp [hp, applyTok, ihMF, ihDF]
    · -- delimUnknownGo
      intro first w l
      show fmtDelimUnknownGoF env (fmtStep env fuel) first w l =
        applyToks w (toksDelimUnknownGoF env (toksStep env fuel) first l)
      unfold fmtDelimUnknownGoF toksDelimUnknownGoF
      cases l with
      | nil => rfl
      | cons x xs =>
        cases first with
        | true =>
          dsimp only
          simp [ihUF, ihDU]
        | false =>
          by_cases hp : w.options.pretty = true <;>
            simp [hp, applyTok, ihUF, ihDU]
    · -- listValuesGo
      intro first w k l
      show fmtListValuesGoF env (fmtStep env fuel) first w k l =
        applyToks w (toksListValuesGoF env (toksStep env fuel) _ _ first k l)
      unfold fmtListValuesGoF toksListValuesGoF
      cases l with
      | nil => rfl
      | cons x xs =>
        cases first with
        | true =>
          dsimp only
          simp [ihVal, ihLV]
        | false =>
          dsimp only
          simp [applyTok, ihVal, ihLV]
    · -- listMapGo
      intro first w vk l
      show fmtListMapGoF env (fmtStep env fuel) first w vk l =
        applyToks w (toksListMapGoF env (toksStep env fuel) _ _ first vk l)
      unfold fmtListMapGoF toksListMapGoF
      cases l with
      | nil => rfl
      | cons x xs =>
        obtain ⟨key, value⟩ := x
        cases first with
        | true =>
          dsimp only
          simp [ihME, ihLM]
        | false =>
          dsimp only
          simp [applyTok, ihME, ihLM]
    · -- mapEntry
      intro w vk key value
      show fmtMapEntryF env (fmtStep env fuel) w vk key value =
        applyToks w (toksMapEntryF env (toksStep env fuel) _ _ vk key value)
      unfold fmtMapEntryF toksMapEntryF
      by_cases hp : w.options.pretty = true <;>
        simp [hp, applyTok, fmt_padding, ihFV, fmt_map_key_eq, writeStr_writeStr]

/-! ## Indent restoration

Every writer method leaves the indent counter exactly where it found it:
the `+= 2` and `-= 2` adjustments around braced blocks are strictly
paired. -/

theorem indentInv (env : Env) : ∀ fuel : Nat,
    (∀ w m, ((fmtStep env fuel).message w m).indent_level = w.indent_level) ∧
    (∀ w v k, ((fmtStep env fuel).value w v k).indent_level = w.indent_level) ∧
    (∀ w f, ((fmtStep env fuel).messageField w f).indent_level = w.indent_level) ∧
    (∀ w v k, ((fmtStep env fuel).fieldValue w v k).indent_level = w.indent_level) ∧
    (∀ w nf, ((fmtStep env fuel).unknownField w nf).indent_level = w.indent_level) ∧
    (∀ w s, ((fmtStep env fuel).unknownFieldSet w s).indent_level = w.indent_level) ∧
    (∀ first w l, ((fmtStep env fuel).delimFieldsGo first w l).indent_level =
      w.indent_level) ∧
    (∀ first w l, ((fmtStep env fuel).delimUnknownGo first w l).indent_level =
      w.indent_level) ∧
    (∀ first w k l, ((fmtStep env fuel).listValuesGo first w k l).indent_level =
      w.indent_level) ∧
    (∀ first w vk l, ((fmtStep env fuel).listMapGo first w vk l).indent_level =
      w.indent_level) ∧
    (∀ w vk key value, ((fmtStep env fuel).mapEntry w vk key value).indent_level =
      w.indent_level) := by
  intro fuel
  induction fuel with
  | zero =>
    refine ⟨?_, ?_, ?_, ?_, ?_, ?_, ?_, ?_, ?_, ?_, ?_⟩ <;> intros <;> rfl
  | succ fuel ih =>
    obtain ⟨ihMsg, ihVal, ihMF, ihFV, ihUF, ihUFS, ihDF, ihDU, ihLV, ihLM, ihME⟩ := ih
    refine ⟨?_, ?_, ?_, ?_, ?_, ?_, ?_, ?_, ?_, ?_, ?_⟩
    · -- message
      intro w m
      show (fmtMessageF env (fmtStep env fuel) w m).indent_level = w.indent_level
      unfold fmtMessageF
      cases h : (if w.options.expand_any then as_any env m else none) with
      | some ub =>
        obtain ⟨url, body⟩ := ub
        dsimp only
        simp [ihFV]
      | none =>
        dsimp only
        by_cases hsu : w.options.skip_unknown_fields = true <;> simp [hsu, ihDF]
    · -- value
      intro w v k
      show (fmtValueF env (fmtStep env fuel) w v k).indent_level = w.indent_level
      unfold fmtValueF
      cases v with
      | bool b => simp
      | i32 n => simp
      | i64 n => simp
      | u32 n => simp
      | u64 n => simp
      | f32 r => simp
      | f64 r => simp
      | string s => simp [fmt_string_eq]
      | bytes s => simp [fmt_string_eq]
      | enumNumber n =>
        match k with
        | none => simp
        | some Kind.scalar => simp
        | some (Kind.message d) => simp
        | some (Kind.enum vs) =>
          cases h : assocInt n vs with
          | some nm => simp [h]
          | none => simp [h]
      | message m =>
        by_cases hall : (m.fields.all
            fun f => w.options.skip_unknown_fields && f.isUnknown) = true
        · simp [hall]
        · by_cases hp : w.options.pretty = true <;> simp [hall, hp, ihMsg]
      | list l => simp [ihLV]
      | map entries => simp [ihLM]
    · -- messageField
      intro w f
      show (fmtMessageFieldF env (fmtStep env fuel) w f).indent_level = w.indent_level
      unfold fmtMessageFieldF
      cases f with
      | field v d => by_cases hg : d.isGroup = true <;> simp [hg, ihFV]
      | ext v d => by_cases hg : d.isGroup = true <;> simp [hg, ihFV]
      | unknown number values =>
        dsimp only
        exact ihDU true w _
    · -- fieldValue
      intro w v k
      show (fmtFieldValueF env (fmtStep env fuel) w v k).indent_level = w.indent_level
      unfold fmtFieldValueF
      by_cases hm : v.isMessage = true <;> simp [hm, ihVal]
    · -- unknownField
      intro w nf
      show (fmtUnknownFieldF env (fmtStep env fuel) w nf).indent_level = w.indent_level
      unfold fmtUnknownFieldF
      obtain ⟨number, f⟩ := nf
      cases f with
      | varint v => simp
      | thirtyTwoBit bs => simp
      | sixtyFourBit bs => simp
      | lengthDelimited bs =>
        cases h : (if bs.isEmpty then none else env.decodeUnknown bs) with
        | some set =>
          dsimp only
          rw [h]
          dsimp only
          simp [ihUFS]
        | none =>
          dsimp only
          rw [h]
          dsimp only
          simp [fmt_string_eq]
      | group s =>
        dsimp only
        simp [ihUFS]
    · -- unknownFieldSet
      intro w s
      show (fmtUnknownFieldSetF env (fmtStep env fuel) w s).indent_level = w.indent_level
      unfold fmtUnknownFieldSetF
      by_cases he : s.fields.isEmpty = true
      · simp [he]
      · by_cases hp : w.options.pretty = true <;> simp [he, hp, ihDU]
    · -- delimFieldsGo
      intro first w l
      show (fmtDelimFieldsGoF env (fmtStep env fuel) first w l).indent_level = w.indent_level
      unfold fmtDelimFieldsGoF
      cases l with
      | nil => rfl
      | cons x xs =>
        cases first with
        | true =>
          dsimp only
          simp [ihMF, ihDF]
        | false =>
          by_cases hp : w.options.pretty = true <;> simp [hp, ihMF, ihDF]
    · -- delimUnknownGo
      intro first w l
      show (fmtDelimUnknownGoF env (fmtStep env fuel) first w l).indent_level = w.indent_level
      unfold fmtDelimUnknownGoF
      cases l with
      | nil => rfl
      | cons x xs =>
        cases first with
        | true =>
          dsimp only
          simp [ihUF, ihDU]
        | false =>
          by_cases hp : w.options.pretty = true <;> simp [hp, ihUF, ihDU]
    · -- listValuesGo
      intro first w k l
      show (fmtListValuesGoF env (fmtStep env fuel) first w k l).indent_level = w.indent_level
      unfold fmtListValuesGoF
      cases l with
      | nil => rfl
      | cons x xs =>
        cases first with
        | true =>
          dsimp only
          simp [ihVal, ihLV]
        | false =>
          dsimp only
          simp [ihVal, ihLV]
    · -- listMapGo
      intro first w vk l
      show (fmtListMapGoF env (fmtStep env fuel) first w vk l).indent_level = w.indent_level
      unfold fmtListMapGoF
      cases l with
      | nil => rfl
      | cons x xs =>
        obtain ⟨key, value⟩ := x
        cases first with
        | true =>
          dsimp only
          simp [ihME, ihLM]
        | false =>
          dsimp only
          simp [ihME, ihLM]
    · -- mapEntry
      intro w vk key value
      show (fmtMapEntryF env (fmtStep env fuel) w vk key value).indent_level = w.indent_level
      unfold fmtMapEntryF
      by_cases hp : w.options.pretty = true <;>
        simp [hp, ihFV, fmt_map_key_eq]

/-! ## Character-level readings of a token replay -/

/-- Replaying tokens in compact mode appends the compact flattening:
separators become commas, padding and block boundaries become nothing. -/
theorem applyToks_out_compact : ∀ (ts : List Tok) (w : Writer),
    w.options.pretty = false → (applyToks w ts).out = w.out ++ flatC ts := by
  intro ts
  induction ts with
  | nil => simp [flatC]
  | cons t ts ih =>
    intro w hp
    cases t with
    | text s =>
      rw [applyToks_cons, applyTok_text, ih _ (by simp [hp])]
      simp [flatC]
    | pad =>
      rw [applyToks_cons, applyTok_pad]
      rw [show fmt_padding w = w by simp [fmt_padding, hp]]
      rw [ih _ hp]
      simp [flatC]
    | sep =>
      rw [applyToks_cons]
      rw [show applyTok w Tok.sep = writeStr w [','] by simp [applyTok, hp]]
      rw [ih _ (by simp [hp])]
      simp [flatC]
    | openB =>
      rw [applyToks_cons]
      rw [show applyTok w Tok.openB = w by simp [applyTok, hp]]
      rw [ih _ hp]
      simp [flatC]
    | closeB =>
      rw [applyToks_cons]
      rw [show applyTok w Tok.closeB = w by simp [applyTok, hp]]
      rw [ih _ hp]
      simp [flatC]

/-- Replaying tokens in pretty mode appends the pretty flattening at the
writer's indent level: padding becomes one space, separators and block
boundaries become a newline plus the current indentation, adjusted by two
per block boundary. -/
theorem applyToks_out_pretty : ∀ (ts : List Tok) (w : Writer),
    w.options.pretty = true →
    (applyToks w ts).out = w.out ++ flatP w.indent_level ts := by
  intro ts
  induction ts with
  | nil => simp [flatP]
  | cons t ts ih =>
    intro w hp
    cases t with
    | text s =>
      rw [applyToks_cons, applyTok_text, ih _ (by simp [hp])]
      simp [flatP]
    | pad =>
      rw [applyToks_cons, applyTok_pad]
      rw [show fmt_padding w = writeStr w [' '] by simp [fmt_padding, hp]]
      rw [ih _ (by simp [hp])]
      simp [flatP]
    | sep =>
      rw [applyToks_cons]
      rw [show applyTok w Tok.sep = fmt_newline w by simp [applyTok, hp]]
      rw [ih _ (by simp [hp])]
      simp [flatP, fmt_newline]
    | openB =>
      rw [applyToks_cons]
      rw [show applyTok w Tok.openB =
        fmt_newline { w with indent_level := w.indent_level + 2 } by simp [applyTok, hp]]
      rw [ih _ (by simp [hp])]
      simp [flatP, fmt_newline]
    | closeB =>
      rw [applyToks_cons]
      rw [show applyTok w Tok.closeB =
        fmt_newline { w with indent_level := w.indent_level - 2 } by simp [applyTok, hp]]
      rw [ih _ (by simp [hp])]
      simp [flatP, fmt_newline]

/-! ## Digit facts -/

theorem fixedDigits_length (base : Nat) : ∀ (w n : Nat), (fixedDigits base w n).length = w := by
  intro w
  induction w with
  | zero => intro n; rfl
  | succ w ih => intro n; simp [fixedDigits, ih]

theorem digitChar_mem_hexChars (m : Nat) (h : m < 16) : Nat.digitChar m ∈ hexChars := by
  interval_cases m <;> decide

theorem fixedDigits_mem_hexChars (w : Nat) :
    ∀ n, ∀ c ∈ fixedDigits 16 w n, c ∈ hexChars := by
  induction w with
  | zero => intro n c hc; simp [fixedDigits] at hc
  | succ w ih =>
    intro n c hc
    simp only [fixedDigits, List.mem_append, List.mem_singleton] at hc
    rcases hc with hc | hc
    · exact ih _ c hc
    · subst hc
      exact digitChar_mem_hexChars _ (Nat.mod_lt _ (by omega))

theorem digitChar_hexVal (m : Nat) (h : m < 16) :
    (if (Nat.digitChar m).toNat ≤ 57 then (Nat.digitChar m).toNat - 48
      else (Nat.digitChar m).toNat - 87) = m := by
  interval_cases m <;> decide

/-- Reading back the fixed-width base-16 digits of a value below `16 ^ w`
recovers the value: the hex rendering of a fixed 32/64-bit fragment
denotes exactly the little-endian integer. -/
theorem fromBase_fixedDigits : ∀ (w n : Nat), n < 16 ^ w →
    fromBase 16 (fixedDigits 16 w n) = n := by
  intro w
  induction w with
  | zero => intro n h; interval_cases n; rfl
  | succ w ih =>
    intro n h
    have hdiv : n / 16 < 16 ^ w := by
      rw [Nat.div_lt_iff_lt_mul (by omega)]
      calc n < 16 ^ (w + 1) := h
        _ = 16 ^ w * 16 := by rw [Nat.pow_succ]
    simp only [fixedDigits, fromBase, List.foldl_append, List.foldl_cons, List.foldl_nil]
    rw [show (List.foldl (fun a c => a * 16 +
        (if c.toNat ≤ 57 then c.toNat - 48 else c.toNat - 87)) 0
        (fixedDigits 16 w (n / 16))) = fromBase 16 (fixedDigits 16 w (n / 16)) from rfl]
    rw [ih _ hdiv, digitChar_hexVal _ (Nat.mod_lt _ (by omega))]
    omega

/-- `Char.ofNat` of a small scalar value reads back as itself. -/
theorem toNat_ofNat_small (n : Nat) (h : n < 0xd800) : (Char.ofNat n).toNat = n := by
  unfold Char.ofNat
  rw [dif_pos (Or.inl h)]
  rfl

/-- The three octal digits written for a non-printable byte. -/
theorem fixedDigits_oct (b : Nat) :
    fixedDigits 8 3 b =
      [Nat.digitChar (b / 64 % 8), Nat.digitChar (b / 8 % 8), Nat.digitChar (b % 8)] := by
  simp [fixedDigits, Nat.div_div_eq_div_mul]

theorem digitChar_oct_facts (m : Nat) (h : m < 8) :
    isOct (Nat.digitChar m) = true ∧ octVal (Nat.digitChar m) = m ∧
      Nat.digitChar m ≠ 't' ∧ Nat.digitChar m ≠ 'r' ∧ Nat.digitChar m ≠ 'n' ∧
      Nat.digitChar m ≠ '\\' ∧ Nat.digitChar m ≠ '\'' ∧ Nat.digitChar m ≠ '"' ∧
      Nat.digitChar m ≠ '\\' := by
  interval_cases m <;> decide

/-- The unescaper inverts the byte escaper: prepending the escape of one
valid byte to any suffix prepends that byte to the suffix's parse. -/
theorem unescape_escByte (b : Nat) (hb : b < 256) (rest : List Char) :
    unescape (escByte b ++ rest) = (unescape rest).map (fun l => b :: l) := by
  by_cases h9 : b = 9
  · subst h9
    rw [show escByte 9 ++ rest = '\\' :: 't' :: rest from rfl, unescape.eq_def]
    simp
  · by_cases h13 : b = 13
    · subst h13
      rw [show escByte 13 ++ rest = '\\' :: 'r' :: rest from rfl, unescape.eq_def]
      simp
    · by_cases h10 : b = 10
      · subst h10
        rw [show escByte 10 ++ rest = '\\' :: 'n' :: rest from rfl, unescape.eq_def]
        simp
      · by_cases h92 : b = 92
        · subst h92
          rw [show escByte 92 ++ rest = '\\' :: '\\' :: rest from rfl, unescape.eq_def]
          simp
        · by_cases h39 : b = 39
          · subst h39
            rw [show escByte 39 ++ rest = '\\' :: '\'' :: rest from rfl, unescape.eq_def]
            simp
          · by_cases h34 : b = 34
            · subst h34
              rw [show escByte 34 ++ rest = '\\' :: '"' :: rest from rfl, unescape.eq_def]
              simp
            · by_cases hpr : 32 ≤ b ∧ b ≤ 126
              · -- literal printable character
                have hv : (Char.ofNat b).toNat = b :=
                  toNat_ofNat_small b (by omega)
                have hne : Char.ofNat b ≠ '\\' := by
                  intro hbad
                  apply h92
                  have := congrArg Char.toNat hbad
                  rw [hv] at this
                  simpa using this
                simp only [escByte, if_neg h9, if_neg h13, if_neg h10, if_neg h92,
                  if_neg h39, if_neg h34, if_pos hpr, List.cons_append, List.nil_append]
                rw [unescape.eq_def]
                dsimp only
                rw [if_neg hne, hv]
              · -- three-digit octal escape
                have h1 : b / 64 % 8 < 8 := Nat.mod_lt _ (by omega)
                have h2 : b / 8 % 8 < 8 := Nat.mod_lt _ (by omega)
                have h3 : b % 8 < 8 := Nat.mod_lt _ (by omega)
                obtain ⟨e1o, e1v, e1t, e1r, e1n, e1b, e1q, e1d, -⟩ :=
                  digitChar_oct_facts _ h1
                obtain ⟨e2o, e2v, -, -, -, -, -, -, -⟩ := digitChar_oct_facts _ h2
                obtain ⟨e3o, e3v, -, -, -, -, -, -, -⟩ := digitChar_oct_facts _ h3
                have hval : b / 64 % 8 * 64 + b / 8 % 8 * 8 + b % 8 = b := by omega
                simp only [escByte, if_neg h9, if_neg h13, if_neg h10, if_neg h92,
                  if_neg h39, if_neg h34, if_neg hpr, fixedDigits_oct,
                  List.cons_append, List.nil_append]
                rw [unescape.eq_def]
                dsimp only
                simp [e1t, e1r, e1n, e1b, e1q, e1d, e1o, e2o, e3o, e1v, e2v, e3v, hval]

/-- Unescaping the concatenated escapes of a byte string recovers the
bytes. -/
theorem unescape_escAll : ∀ bytes : List Nat, (∀ b ∈ bytes, b < 256) →
    unescape ((bytes.map escByte).flatten) = some bytes := by
  intro bytes
  induction bytes with
  | nil => intro _; rfl
  | cons b bs ih =>
    intro h
    have hb : b < 256 := h b (by simp)
    have ih' := ih (fun x hx => h x (by simp [hx]))
    simp only [List.map_cons, List.flatten_cons]
    rw [unescape_escByte b hb, ih']
    rfl

/-! ## Support for the claim statements -/

theorem digitChar_oct_printable (m : Nat) (h : m < 8) :
    printableAscii (Nat.digitChar m) = true := by
  interval_cases m <;> decide

/-- Every character of a single byte escape is printable ASCII. -/
theorem escByte_printable (b : Nat) : (escByte b).all printableAscii = true := by
  unfold escByte
  split_ifs with h1 h2 h3 h4 h5 h6 h7
  · decide
  · decide
  · decide
  · decide
  · decide
  · decide
  · have hv : (Char.ofNat b).toNat = b := toNat_ofNat_small b (by omega)
    simp [printableAscii, hv]
    omega
  · rw [fixedDigits_oct]
    simp only [List.all_cons, Bool.and_eq_true]
    refine ⟨by decide, ?_, ?_, ?_, rfl⟩ <;>
      exact digitChar_oct_printable _ (Nat.mod_lt _ (by omega))

theorem delimFieldsGo_nil (env : Env) (fuel : Nat) (first : Bool) (w : Writer) :
    fmtDelimFieldsGo env fuel first w [] = w := by
  cases fuel <;> rfl

theorem delimUnknownGo_nil (env : Env) (fuel : Nat) (first : Bool) (w : Writer) :
    fmtDelimUnknownGo env fuel first w [] = w := by
  cases fuel <;> rfl

/-- A byte list all of whose entries are below 256 denotes, little-endian,
a value below `256 ^ length`. -/
theorem fromLE_lt : ∀ bs : List Nat, (∀ b ∈ bs, b < 256) → fromLE bs < 256 ^ bs.length := by
  intro bs
  induction bs with
  | nil => intro _; simp [fromLE]
  | cons b t ih =>
    intro h
    have hb : b < 256 := h b (by simp)
    have ht := ih (fun x hx => h x (by simp [hx]))
    have hpow : 256 ^ (t.length + 1) = 256 * 256 ^ t.length := by
      rw [Nat.pow_succ]; ring
    simp only [fromLE, List.foldr_cons, List.length_cons] at *
    omega

/-! ## Claim C1 -/

/-- C1: for every input byte sequence, `fmt_string` emits an opening
double quote, then each byte transformed per the escaping table (tab to
backslash-t, carriage return to backslash-r, line feed to backslash-n,
backslash doubled, single and double quotes backslash-escaped, printable
ASCII 0x20 to 0x7E literal, every other byte as a three-digit octal
escape), then a closing double quote, processing the raw octets
byte-by-byte. -/
theorem c1_fmt_string_table (w : Writer) (bytes : List Nat) :
    fmt_string w bytes =
      writeStr w ('"' :: ((bytes.map specEscTable).flatten ++ ['"'])) := by
  rw [fmt_string_eq]
  rfl

/-! ## Claim C10 -/

/-- C10: starting from an empty sink, every character written by
`fmt_string` — the surrounding quotes and all escaped content — is
printable ASCII in the range 0x20 to 0x7E; no raw control bytes, raw
newlines, or non-ASCII bytes ever appear. -/
theorem c10_fmt_string_printable (opts : FormatOptions) (ind : Nat) (bytes : List Nat) :
    ((fmt_string (Writer.mk opts [] ind) bytes).out).all printableAscii = true := by
  rw [fmt_string_eq]
  simp only [writeStr_out, List.nil_append, escString]
  rw [List.all_eq_true]
  intro c hc
  simp only [List.mem_cons, List.mem_append, List.mem_singleton] at hc
  rcases hc with hc | hc | hc
  · subst hc; decide
  · rw [List.mem_flatten] at hc
    obtain ⟨l, hl, hcl⟩ := hc
    rw [List.mem_map] at hl
    obtain ⟨b, _, rfl⟩ := hl
    have := escByte_printable b
    rw [List.all_eq_true] at this
    exact this c hcl
  · rcases hc with hc | hc
    · subst hc; decide
    · simp at hc

/-! ## Claim C5 -/

/-- C5: escaping is reversible and injective: applying the compliant
unescaper to the text between the quotes written by `fmt_string`
reproduces the original byte sequence exactly, and two byte sequences
with the same escaped text are equal. -/
theorem c5_escape_roundtrip (bytes : List Nat) (hb : ∀ b ∈ bytes, b < 256) :
    (∀ w : Writer, fmt_string w bytes =
      writeStr w ('"' :: ((bytes.map escByte).flatten ++ ['"']))) ∧
    unescape ((bytes.map escByte).flatten) = some bytes ∧
    (∀ bytes2 : List Nat, (∀ b ∈ bytes2, b < 256) →
      (bytes.map escByte).flatten = (bytes2.map escByte).flatten → bytes = bytes2) := by
  refine ⟨fun w => by rw [fmt_string_eq]; rfl, unescape_escAll bytes hb, ?_⟩
  intro bytes2 hb2 heq
  have h1 := unescape_escAll bytes hb
  have h2 := unescape_escAll bytes2 hb2
  rw [heq, h2] at h1
  exact (Option.some.inj h1).symm

theorem c5_witness :
    ((∀ b ∈ [104, 10, 200], b < 256) ∧
      unescape ((([104, 10, 200] : List Nat).map escByte).flatten) = some [104, 10, 200]) :=
  ⟨by decide, (c5_escape_roundtrip [104, 10, 200] (by decide)).2.1⟩

/-! ## Claim C3 -/

/-- C3: a message value whose present fields are absent entirely, or all
unknown while `skip_unknown_fields` is set, renders through `fmt_value`
as exactly the two brace characters, in both pretty and compact mode. -/
theorem c3_empty_message_braces (env : Env) (fuel : Nat) (w : Writer) (m : DynamicMessage)
    (k : Option Kind) (hfuel : 0 < fuel)
    (h : m.fields = [] ∨ (w.options.skip_unknown_fields = true ∧
      ∀ f ∈ m.fields, f.isUnknown = true)) :
    fmt_value env fuel w (Value.message m) k = writeStr w ['{', '}'] := by
  obtain ⟨fuel, rfl⟩ : ∃ n, fuel = n + 1 := ⟨fuel - 1, by omega⟩
  show fmtValueF env (fmtStep env fuel) w (Value.message m) k = _
  unfold fmtValueF
  have hall : (m.fields.all fun f => w.options.skip_unknown_fields && f.isUnknown) = true := by
    rcases h with h | ⟨hsu, hun⟩
    · rw [h]; rfl
    · rw [List.all_eq_true]
      intro f hf
      rw [hsu, hun f hf]
      rfl
  simp [hall]

theorem c3_witness :
    fmt_value envTriv 1 (Writer.mk ⟨true, true, true⟩ [] 0)
      (Value.message (DynamicMessage.mk (MessageDescriptor.mk [] [] Kind.scalar []) []))
      none = writeStr (Writer.mk ⟨true, true, true⟩ [] 0) ['{', '}'] :=
  c3_empty_message_braces envTriv 1 _ _ none (by decide) (Or.inl rfl)

/-! ## Claim C9 -/

/-- C9: at the public top level the delimited field sequence is emitted
without surrounding braces, so the display of a dynamic message with
nothing to render (no present fields, or only unknown entries under the
default `skip_unknown_fields`), and the display of an empty unknown field
set, are the empty string, not a brace pair. -/
theorem c9_top_level_empty_render (env : Env) (fuel : Nat) (alt : Bool) (m : DynamicMessage)
    (hany : as_any env m = none)
    (h : m.fields = [] ∨ ∀ f ∈ m.fields, f.isUnknown = true) :
    displayDynamicMessage env fuel alt m = [] ∧
    displayUnknownFieldSet env fuel alt ⟨[]⟩ = [] := by
  constructor
  · unfold displayDynamicMessage
    cases fuel with
    | zero => rfl
    | succ n =>
      show (fmtMessageF env (fmtStep env n) (Writer.mk (fromFormatter alt) [] 0) m).out = []
      unfold fmtMessageF
      have hnone : (if (Writer.mk (fromFormatter alt) [] 0).options.expand_any then
          as_any env m else none) = none := by
        split <;> simp [hany]
      rw [hnone]
      dsimp only
      have hfilter : m.fields.filter (fun f => !f.isUnknown) = [] := by
        rcases h with h | h
        · rw [h]; rfl
        · rw [List.filter_eq_nil_iff]
          intro f hf
          simp [h f hf]
      rw [show (Writer.mk (fromFormatter alt) [] 0).options.skip_unknown_fields = true from rfl]
      rw [if_pos rfl, hfilter]
      rw [show (fmtStep env n).delimFieldsGo = fmtDelimFieldsGo env n from rfl]
      rw [delimFieldsGo_nil]
  · unfold displayUnknownFieldSet
    rw [show (⟨[]⟩ : UnknownFieldSet).fields = [] from rfl]
    rw [delimUnknownGo_nil]

theorem c9_witness :
    displayDynamicMessage envTriv 3 false
        (DynamicMessage.mk (MessageDescriptor.mk [] [] Kind.scalar [])
          [ValueAndDescriptor.unknown 5 [UnknownField.varint 1]]) = [] ∧
      displayUnknownFieldSet envTriv 3 false ⟨[]⟩ = [] :=
  c9_top_level_empty_render envTriv 3 false _ rfl (Or.inr (by decide))

/-! ## Claim C2 -/

/-- C2: the unknown-field renderer writes the field number, then per wire
type: a varint as a colon, padding and the unsigned decimal of its 64-bit
value; a fixed 32-bit fragment as a colon, padding, `0x` and the 8
lowercase hex digits denoting the little-endian 32-bit value (16 digits
for fixed 64-bit); a non-empty length-delimited fragment that decodes as a
nested set as padding plus the nested set syntax with no colon; an empty
or undecodable fragment as a colon, padding and the escaped byte string;
and a group as padding plus the nested set syntax with no colon. -/
theorem c2_unknown_field_rendering (env : Env) (fuel : Nat) (w : Writer) (number : Nat)
    (hfuel : 0 < fuel) :
    (∀ v, fmt_unknown_field env fuel w (number, UnknownField.varint v) =
      writeStr (fmt_padding (writeStr (writeStr w (decDigits number)) [':']))
        (decDigits v)) ∧
    (∀ bs, fmt_unknown_field env fuel w (number, UnknownField.thirtyTwoBit bs) =
      writeStr (fmt_padding (writeStr (writeStr w (decDigits number)) [':']))
        ('0' :: 'x' :: fixedDigits 16 8 (fromLE bs))) ∧
    (∀ bs, bs.length = 4 → (∀ b ∈ bs, b < 256) →
      (fixedDigits 16 8 (fromLE bs)).length = 8 ∧
      (∀ c ∈ fixedDigits 16 8 (fromLE bs), c ∈ hexChars) ∧
      fromBase 16 (fixedDigits 16 8 (fromLE bs)) = fromLE bs) ∧
    (∀ bs, fmt_unknown_field env fuel w (number, UnknownField.sixtyFourBit bs) =
      writeStr (fmt_padding (writeStr (writeStr w (decDigits number)) [':']))
        ('0' :: 'x' :: fixedDigits 16 16 (fromLE bs))) ∧
    (∀ bs, bs.length = 8 → (∀ b ∈ bs, b < 256) →
      (fixedDigits 16 16 (fromLE bs)).length = 16 ∧
      (∀ c ∈ fixedDigits 16 16 (fromLE bs), c ∈ hexChars) ∧
      fromBase 16 (fixedDigits 16 16 (fromLE bs)) = fromLE bs) ∧
    (∀ bs set, bs ≠ [] → env.decodeUnknown bs = some set →
      fmt_unknown_field env fuel w (number, UnknownField.lengthDelimited bs) =
        fmt_unknown_field_set env (fuel - 1)
          (fmt_padding (writeStr w (decDigits number))) set) ∧
    (∀ bs, bs = [] ∨ env.decodeUnknown bs = none →
      fmt_unknown_field env fuel w (number, UnknownField.lengthDelimited bs) =
        fmt_string (fmt_padding (writeStr (writeStr w (decDigits number)) [':'])) bs) ∧
    (∀ s, fmt_unknown_field env fuel w (number, UnknownField.group s) =
      fmt_unknown_field_set env (fuel - 1)
        (fmt_padding (writeStr w (decDigits number))) ⟨s⟩) := by
  obtain ⟨n, rfl⟩ : ∃ k, fuel = k + 1 := ⟨fuel - 1, by omega⟩
  simp only [Nat.add_sub_cancel]
  refine ⟨fun v => rfl, fun bs => rfl, ?_, fun bs => rfl, ?_, ?_, ?_, fun s => rfl⟩
  · intro bs hlen hb
    refine ⟨fixedDigits_length 16 8 _, fixedDigits_mem_hexChars 8 _, ?_⟩
    apply fromBase_fixedDigits
    have hlt := fromLE_lt bs hb
    rw [hlen] at hlt
    calc fromLE bs < 256 ^ 4 := hlt
      _ = 16 ^ 8 := by norm_num
  · intro bs hlen hb
    refine ⟨fixedDigits_length 16 16 _, fixedDigits_mem_hexChars 16 _, ?_⟩
    apply fromBase_fixedDigits
    have hlt := fromLE_lt bs hb
    rw [hlen] at hlt
    calc fromLE bs < 256 ^ 8 := hlt
      _ = 16 ^ 16 := by norm_num
  · intro bs set hbs hdec
    have hne : bs.isEmpty = false := by
      cases bs with
      | nil => exact absurd rfl hbs
      | cons a l => rfl
    have hsc : (if bs.isEmpty then none else env.decodeUnknown bs) = some set := by
      rw [hne, if_neg (by simp), hdec]
    show fmtUnknownFieldF env (fmtStep env n) w (number, UnknownField.lengthDelimited bs) = _
    unfold fmtUnknownFieldF
    dsimp only
    rw [hsc]
    rfl
  · intro bs hbs
    have hsc : (if bs.isEmpty then none else env.decodeUnknown bs) = none := by
      rcases hbs with rfl | hdec
      · rfl
      · split
        · rfl
        · exact hdec
    show fmtUnknownFieldF env (fmtStep env n) w (number, UnknownField.lengthDelimited bs) = _
    unfold fmtUnknownFieldF
    dsimp only
    rw [hsc]

theorem c2_witness :
    (0 < 3 ∧
      fmt_unknown_field envTriv 3 (Writer.mk ⟨false, true, true⟩ [] 0)
          (7, UnknownField.varint 5) =
        writeStr (fmt_padding (writeStr
          (writeStr (Writer.mk ⟨false, true, true⟩ [] 0) (decDigits 7)) [':']))
          (decDigits 5)) ∧
    fromBase 16 (fixedDigits 16 8 (fromLE [205, 204, 12, 64])) =
      fromLE [205, 204, 12, 64] :=
  ⟨⟨by decide,
    (c2_unknown_field_rendering envTriv 3 (Writer.mk ⟨false, true, true⟩ [] 0) 7
      (by decide)).1 5⟩,
    ((c2_unknown_field_rendering envTriv 3 (Writer.mk ⟨false, true, true⟩ [] 0) 7
      (by decide)).2.2.1 [205, 204, 12, 64] (by decide) (by decide)).2.2⟩

/-! ## Claim C4 -/

/-- C4: with `expand_any` set, a message whose declared full type name is
the `Any` wrapper, whose type identifier strips a known prefix to a name
resolved in the pool reachable from the message's own descriptor, and
whose payload decodes at that type, renders as the bracketed original
identifier followed by the decoded body in field-value syntax; and
whenever the `as_any` chain fails at any step, the wrapper renders as an
ordinary message from the unchanged writer, so not one character of an
attempted expansion reaches the sink. -/
theorem c4_any_expansion (env : Env) (fuel : Nat) (w : Writer) (m : DynamicMessage) :
    (∀ url payload msgName d body,
      w.options.expand_any = true → 0 < fuel →
      m.desc.fullName = ("google.protobuf.Any".data) →
      env.transcodeAny m = some (url, payload) →
      anyTypeName url = some msgName →
      assocName msgName m.desc.pool = some d →
      env.decodeDyn d payload = some body →
      fmt_message env fuel w m =
        fmt_field_value env (fuel - 1) (writeStr w ('[' :: (url ++ [']'])))
          (Value.message body) none) ∧
    (as_any env m = none → 0 < fuel →
      fmt_message env fuel w m =
        (if w.options.skip_unknown_fields then
          fmtDelimFieldsGo env (fuel - 1) true w (m.fields.filter fun f => !f.isUnknown)
        else fmtDelimFieldsGo env (fuel - 1) true w m.fields)) := by
  constructor
  · intro url payload msgName d body hea hfuel hname htr hstrip hlook hdec
    obtain ⟨n, rfl⟩ : ∃ k, fuel = k + 1 := ⟨fuel - 1, by omega⟩
    simp only [Nat.add_sub_cancel]
    have hAny : as_any env m = some (url, body) := by
      unfold as_any
      rw [if_pos hname, htr]
      dsimp only
      rw [hstrip]
      dsimp only
      rw [hlook]
      dsimp only
      rw [hdec]
    show fmtMessageF env (fmtStep env n) w m = _
    unfold fmtMessageF
    have hsc : (if w.options.expand_any then as_any env m else none) = some (url, body) := by
      rw [hea, if_pos rfl, hAny]
    rw [hsc]
    rfl
  · intro hnone hfuel
    obtain ⟨n, rfl⟩ : ∃ k, fuel = k + 1 := ⟨fuel - 1, by omega⟩
    simp only [Nat.add_sub_cancel]
    show fmtMessageF env (fmtStep env n) w m = _
    unfold fmtMessageF
    have hsc : (if w.options.expand_any then as_any env m else none) = none := by
      split
      · exact hnone
      · rfl
    rw [hsc]
    rfl

theorem c4_witness :
    (fmt_message envAny 5 (Writer.mk ⟨false, true, true⟩ [] 0) wrapperMsg =
      fmt_field_value envAny 4
        (writeStr (Writer.mk ⟨false, true, true⟩ [] 0)
          ('[' :: (("type.googleapis.com/test.M".data) ++ [']'])))
        (Value.message bodyMsg) none) ∧
    (fmt_message envTriv 5 (Writer.mk ⟨false, true, true⟩ [] 0) wrapperMsg =
      (if (Writer.mk ⟨false, true, true⟩ [] 0).options.skip_unknown_fields then
        fmtDelimFieldsGo envTriv 4 true (Writer.mk ⟨false, true, true⟩ [] 0)
          (wrapperMsg.fields.filter fun f => !f.isUnknown)
      else fmtDelimFieldsGo envTriv 4 true (Writer.mk ⟨false, true, true⟩ [] 0)
        wrapperMsg.fields)) :=
  ⟨(c4_any_expansion envAny 5 (Writer.mk ⟨false, true, true⟩ [] 0) wrapperMsg).1
      ("type.googleapis.com/test.M".data) [1] ("test.M".data) descBody bodyMsg rfl
      (by decide) rfl rfl rfl rfl rfl,
    (c4_any_expansion envTriv 5 (Writer.mk ⟨false, true, true⟩ [] 0) wrapperMsg).2
      rfl (by decide)⟩

/-! ## Claim C7 -/

/-- C7: the standalone display of an unknown field set renders with
`skip_unknown_fields` forced to `false` and `pretty` taken from the
alternate flag, even though the ambient options from the formatter would
have `skip_unknown_fields = true`; its output is the flattening, in the
chosen mode, of a token sequence that consults no option at all, so every
fragment in the set is rendered regardless of ambient flags. -/
theorem c7_unknown_set_display (env : Env) (fuel : Nat) (alt : Bool) (s : UnknownFieldSet) :
    displayUnknownFieldSet env fuel alt s =
      (fmtDelimUnknownGo env fuel true (Writer.mk ⟨alt, false, true⟩ [] 0) s.fields).out ∧
    fromFormatter alt = ⟨alt, true, true⟩ ∧
    displayUnknownFieldSet env fuel alt s =
      (if alt then flatP 0 (toksDelimUnknownGo env fuel true s.fields)
        else flatC (toksDelimUnknownGo env fuel true s.fields)) := by
  refine ⟨rfl, rfl, ?_⟩
  have hm := (master env fuel).2.2.2.2.2.2.2.1 true
    (Writer.mk { fromFormatter alt with skip_unknown_fields := false } [] 0) s.fields
  unfold displayUnknownFieldSet
  rw [show fmtDelimUnknownGo env fuel = (fmtStep env fuel).delimUnknownGo from rfl, hm]
  cases alt with
  | true =>
    rw [applyToks_out_pretty _ _ rfl]
    rfl
  | false =>
    rw [applyToks_out_compact _ _ rfl]
    rfl

/-! ## Claim C8 -/

/-- C8: the indent counter is restored by every formatting operation (the
increments and decrements around braced blocks are strictly paired), and
each emitted newline is followed by exactly `indent_level` spaces — two
per nesting level, the counter moving in steps of two. -/
theorem c8_indent_pairing (env : Env) (fuel : Nat) :
    (∀ w v k, (fmt_value env fuel w v k).indent_level = w.indent_level) ∧
    (∀ w m, (fmt_message env fuel w m).indent_level = w.indent_level) ∧
    (∀ w nf, (fmt_unknown_field env fuel w nf).indent_level = w.indent_level) ∧
    (∀ w s, (fmt_unknown_field_set env fuel w s).indent_level = w.indent_level) ∧
    (∀ w, fmt_newline w = writeStr w ('\n' :: List.replicate w.indent_level ' ')) := by
  obtain ⟨hM, hV, hMF, hFV, hUF, hUFS, hDF, hDU, hLV, hLM, hME⟩ := indentInv env fuel
  exact ⟨hV, hM, hUF, hUFS, fun w => rfl⟩

/-! ## Claim C6 -/

/-- C6 counterexample: for the map value rendered in the `Display`
documentation example, stripping every space and newline from the pretty
render does not yield the compact render even after also deleting every
space from the compact side: the pretty sibling separator (newline plus
indent) strips to nothing where the compact render has a comma, a
difference that no treatment of spaces can reconcile. -/
theorem c6_counterexample :
    ((displayValue envTriv 8 true c6Value).filter fun c => !(c == ' ' || c == '\n')) ≠
      ((displayValue envTriv 8 false c6Value).filter fun c => !(c == ' ')) := by
  decide

/-- C6 amended: the pretty and the compact render of any value arise from
one shared token sequence that never consults the pretty flag: the
compact render realises each sibling separator as a comma and padding and
block boundaries as nothing, while the pretty render realises padding as
one space and separators and block boundaries as a newline plus the
current indentation — so the two renders have the same fields in the same
order and the same tokens, differing only in the realisation of
delimiters, padding, and newline-indentation (which strips to nothing,
not to the compact comma). -/
theorem c6_mode_agreement (env : Env) (fuel : Nat) (v : Value) :
    displayValue env fuel false v = flatC (toksValue env fuel true true v none) ∧
    displayValue env fuel true v = flatP 0 (toksValue env fuel true true v none) := by
  constructor
  · have hm := (master env fuel).2.1 (Writer.mk (fromFormatter false) [] 0) v none
    unfold displayValue
    rw [show fmt_value env fuel = (fmtStep env fuel).value from rfl, hm]
    rw [applyToks_out_compact _ _ rfl]
    rfl
  · have hm := (master env fuel).2.1 (Writer.mk (fromFormatter true) [] 0) v none
    unfold displayValue
    rw [show fmt_value env fuel = (fmtStep env fuel).value from rfl, hm]
    rw [applyToks_out_pretty _ _ rfl]
    rfl

end ProstFmt
